import Mathlib

/-!
# Crowdplex aggregation and ranking pipeline: a verification development

This file gives a shallow embedding, in Lean 4, of the core aggregation and
ranking pipeline of the Crowdplex repository:

* the seat-snapshot arithmetic of the backend `GET /api/seat-availability`
  handler (counting seats tagged `"Occupied"` / `"Available"` and computing a
  rounded occupancy percentage);
* the theatre deduplication loop of `loadTheatresAndShowtimes` (frontend app);
* the seat enrichment steps of `loadTheatresAndShowtimes` (stable sort of the
  session list by start time, priority subset of the first 200 entries,
  keyed merge of fetched seat data back onto the full session list);
* the movie grouping, aggregate metrics (`averageOccupancy`,
  `totalSeatsBooked`, `totalSeatsAvailable`, `earliestShowtime`) and the
  ranking comparator of the frontend app;
* the bounded-concurrency batch-fetch runner of the API service
  (`fetchShowtimesForTheatres` / `fetchSeatAvailabilityBatch`), modelled as a
  small-step transition system over the scheduler's interleavings.

Modelling conventions:

* JavaScript numbers that are in fact non-negative integers (ids, seat
  counts, timestamps) are modelled as `Nat`; `new Date(s)` applied to a valid
  date string yields its numeric timestamp, so `showStartDateTime` is
  modelled directly as that `Nat` timestamp.
* `Math.round(p / q)` on non-negative integers `p`, `q > 0` is
  `⌊p/q + 1/2⌋`, i.e. `(2*p + q) / (2*q)` in `Nat` division (`jsRound`
  below, with the bridge lemma `jsRound_eq_round`).
* `Array.prototype.sort` is required by the language specification to be a
  stable sort of the array by the comparator; it is modelled by the stable
  `List.insertionSort` (any two stable sorts by a total preorder agree).
* A JS object used as a string-keyed map is modelled by an association list
  in insertion order, with last-write-wins lookup.
* JS object property enumeration (`Object.values`) follows the ECMAScript
  `[[OwnPropertyKeys]]` order: keys that are canonical integer strings — such
  as the grouping keys `` `${movieId}` `` for numeric movie ids — enumerate
  in ascending numeric order, regardless of insertion order.  (Keys that are
  not integer-like, such as `` `${theatreId}-${showtimeId}` ``, enumerate in
  insertion order, but the seat-data map is only read back by key, so its
  order never matters.)
-/

/-- `Math.round (p / q)` for natural `p` and positive natural `q`:
`⌊p/q + 1/2⌋ = (2*p + q) / (2*q)` in natural-number division.
(JS `Math.round` rounds half-way cases up, i.e. `Math.round x = ⌊x + 1/2⌋`.) -/
def jsRound (p q : Nat) : Nat := (2 * p + q) / (2 * q)

/-- The natural-number formula `jsRound` agrees with rounding the exact
rational `p / q` to the nearest integer (half up), for `q > 0`. -/
theorem jsRound_eq_round (p q : Nat) (hq : 0 < q) :
    (jsRound p q : ℤ) = round ((p : ℚ) / (q : ℚ)) := by
  have hq0 : ((q : ℚ)) ≠ 0 := by positivity
  have h2q : ((2 * q : ℕ) : ℚ) ≠ 0 := by positivity
  rw [round_eq]
  have hx : (p : ℚ) / (q : ℚ) + 1 / 2 = ((2 * p + q : ℕ) : ℚ) / ((2 * q : ℕ) : ℚ) := by
    push_cast
    field_simp
    ring
  rw [hx]
  have hnonneg : (0 : ℚ) ≤ ((2 * p + q : ℕ) : ℚ) / ((2 * q : ℕ) : ℚ) := by positivity
  rw [← Int.natCast_floor_eq_floor hnonneg, Nat.floor_div_nat, Nat.floor_natCast]
  rfl

/-! ## Seat snapshot (backend `GET /api/seat-availability` handler)

The handler receives the upstream JSON, reads `data.seatAvailabilities || {}`
(a map from seat id to a state string), and computes

```js
const totalSeats = Object.keys(seatAvailabilities).length;
const occupiedSeats = Object.values(seatAvailabilities).filter(s => s === 'Occupied').length;
const availableSeats = Object.values(seatAvailabilities).filter(s => s === 'Available').length;
occupancyPercentage: totalSeats > 0 ? Math.round((occupiedSeats / totalSeats) * 100) : 0
```

The seat map is modelled as an association list of (seat id, state string).
-/

/-- The four derived seat-occupancy statistics attached to the upstream
payload by the seat-availability handler. -/
structure SeatSnapshot where
  totalSeats : Nat
  occupiedSeats : Nat
  availableSeats : Nat
  occupancyPercentage : Nat
deriving DecidableEq, Repr

/-- `Object.values(seatAvailabilities)`: the state strings of the seat map. -/
def seatValues (seatAvailabilities : List (String × String)) : List String :=
  seatAvailabilities.map (fun e => e.2)

/-- The seat-snapshot computation of the seat-availability handler. -/
def computeSeatSnapshot (seatAvailabilities : List (String × String)) : SeatSnapshot :=
  let totalSeats := seatAvailabilities.length
  let occupiedSeats := ((seatValues seatAvailabilities).filter (fun s => s == "Occupied")).length
  let availableSeats := ((seatValues seatAvailabilities).filter (fun s => s == "Available")).length
  { totalSeats := totalSeats
    occupiedSeats := occupiedSeats
    availableSeats := availableSeats
    occupancyPercentage := if 0 < totalSeats then jsRound (100 * occupiedSeats) totalSeats else 0 }

/-- C6: for every raw seat-state map, the snapshot's `totalSeats` is the
number of seats in the map, `occupiedSeats` the number tagged `"Occupied"`,
`availableSeats` the number tagged `"Available"`, and `occupancyPercentage`
is `round(occupiedSeats / totalSeats × 100)`, defined as `0` when
`totalSeats = 0` — in particular the empty map yields `occupancyPercentage = 0`
and `totalSeats = 0` with no division error. -/
theorem computeSeatSnapshot_spec (m : List (String × String)) :
    (computeSeatSnapshot m).totalSeats = m.length ∧
    (computeSeatSnapshot m).occupiedSeats =
      ((seatValues m).filter (fun s => s == "Occupied")).length ∧
    (computeSeatSnapshot m).availableSeats =
      ((seatValues m).filter (fun s => s == "Available")).length ∧
    ((computeSeatSnapshot m).occupancyPercentage : ℤ) =
      (if m.length = 0 then 0 else
        round (((computeSeatSnapshot m).occupiedSeats : ℚ) /
          ((computeSeatSnapshot m).totalSeats : ℚ) * 100)) ∧
    (computeSeatSnapshot []).occupancyPercentage = 0 ∧
    (computeSeatSnapshot []).totalSeats = 0 := by
  refine ⟨rfl, rfl, rfl, ?_, rfl, rfl⟩
  by_cases h : m.length = 0
  · simp [computeSeatSnapshot, h]
  · have hpos : 0 < m.length := Nat.pos_of_ne_zero h
    have hocc : (computeSeatSnapshot m).occupancyPercentage =
        jsRound (100 * ((seatValues m).filter (fun s => s == "Occupied")).length) m.length := by
      simp [computeSeatSnapshot, hpos]
    rw [hocc, if_neg h, jsRound_eq_round _ _ hpos]
    have : ((computeSeatSnapshot m).occupiedSeats : ℚ) /
        ((computeSeatSnapshot m).totalSeats : ℚ) * 100 =
        ((100 * ((seatValues m).filter (fun s => s == "Occupied")).length : ℕ) : ℚ) /
          ((m.length : ℕ) : ℚ) := by
      show ((((seatValues m).filter (fun s => s == "Occupied")).length : ℚ)) /
          ((m.length : ℚ)) * 100 = _
      push_cast
      ring
    rw [this]

/-- Counting lemma: for two predicates that never hold simultaneously, the
two filtered sub-lists together never exceed the whole list, and they exhaust
it exactly when every element satisfies one of the two predicates. -/
theorem length_filter_two {α : Type} (p q : α → Bool)
    (hpq : ∀ a, ¬(p a = true ∧ q a = true)) (l : List α) :
    (l.filter p).length + (l.filter q).length ≤ l.length ∧
    ((l.filter p).length + (l.filter q).length = l.length ↔
      ∀ a ∈ l, p a = true ∨ q a = true) := by
  induction l with
  | nil => simp
  | cons x xs ih =>
    obtain ⟨ihle, ihiff⟩ := ih
    rw [List.forall_mem_cons, List.length_cons]
    rcases hp : p x with _ | _ <;> rcases hq : q x with _ | _
    · rw [show (x :: xs).filter p = xs.filter p by simp [List.filter_cons, hp],
        show (x :: xs).filter q = xs.filter q by simp [List.filter_cons, hq]]
      refine ⟨by omega, ?_, ?_⟩
      · intro h
        omega
      · intro h
        rcases h.1 with h' | h' <;> exact absurd h' Bool.false_ne_true
    · rw [show (x :: xs).filter p = xs.filter p by simp [List.filter_cons, hp],
        show (x :: xs).filter q = x :: xs.filter q by simp [List.filter_cons, hq],
        List.length_cons]
      refine ⟨by omega, ?_, ?_⟩
      · intro h
        exact ⟨Or.inr rfl, ihiff.mp (by omega)⟩
      · intro h
        have := ihiff.mpr h.2
        omega
    · rw [show (x :: xs).filter p = x :: xs.filter p by simp [List.filter_cons, hp],
        show (x :: xs).filter q = xs.filter q by simp [List.filter_cons, hq],
        List.length_cons]
      refine ⟨by omega, ?_, ?_⟩
      · intro h
        exact ⟨Or.inl rfl, ihiff.mp (by omega)⟩
      · intro h
        have := ihiff.mpr h.2
        omega
    · exact absurd ⟨hp, hq⟩ (hpq x)

/-- Specialisation of `length_filter_two` to the two seat-state tags. -/
theorem count_two_states (l : List String) :
    (l.filter (fun s => s == "Occupied")).length +
      (l.filter (fun s => s == "Available")).length ≤ l.length ∧
    ((l.filter (fun s => s == "Occupied")).length +
        (l.filter (fun s => s == "Available")).length = l.length ↔
      ∀ v ∈ l, v = "Occupied" ∨ v = "Available") := by
  have h := length_filter_two (fun s => s == "Occupied") (fun s => s == "Available")
    (by intro a h; rcases h with ⟨h1, h2⟩; simp at h1 h2; subst h1; exact absurd h2 (by decide)) l
  refine ⟨h.1, h.2.trans ?_⟩
  constructor
  · intro h' v hv
    rcases h' v hv with h'' | h'' <;> simp at h'' <;> [exact Or.inl h''; exact Or.inr h'']
  · intro h' v hv
    rcases h' v hv with h'' | h'' <;> [exact Or.inl (by simp [h'']); exact Or.inr (by simp [h''])]

/-- C10: for every raw seat-state map, `occupiedSeats + availableSeats ≤
totalSeats`, with equality exactly when every seat is tagged `"Available"`
or `"Occupied"`; seats carrying any other tag count towards `totalSeats`
(the denominator of `occupancyPercentage`) but towards neither of the two
tagged counts. -/
theorem computeSeatSnapshot_counts (m : List (String × String)) :
    (computeSeatSnapshot m).occupiedSeats + (computeSeatSnapshot m).availableSeats ≤
      (computeSeatSnapshot m).totalSeats ∧
    ((computeSeatSnapshot m).occupiedSeats + (computeSeatSnapshot m).availableSeats =
        (computeSeatSnapshot m).totalSeats ↔
      ∀ v ∈ seatValues m, v = "Occupied" ∨ v = "Available") := by
  have h := count_two_states (seatValues m)
  have hlen : (seatValues m).length = m.length := List.length_map _ _
  refine ⟨?_, ?_⟩
  · show (((seatValues m).filter (fun s => s == "Occupied")).length) +
      (((seatValues m).filter (fun s => s == "Available")).length) ≤ m.length
    omega
  · show (((seatValues m).filter (fun s => s == "Occupied")).length) +
      (((seatValues m).filter (fun s => s == "Available")).length) = m.length ↔ _
    rw [← hlen]
    exact h.2

/-! ## Sessions and seat enrichment (frontend `loadTheatresAndShowtimes`)

A flat session record as produced by the showtime collector (Step 3 of
`loadTheatresAndShowtimes`): the collector never sets the four occupancy
fields, so they start out absent (`none`).  `showStartDateTime` is modelled
by its numeric timestamp (`new Date(s)` of a valid date string), and the
string key `` `${theatreId}-${vistaSessionId}` `` of the seat-data map by the
pair `(theatreId, vistaSessionId)` (decimal rendering of two naturals joined
by `-` is injective as a pair). -/
structure Session where
  movieId : Nat
  movieName : String
  posterUrl : String
  runtime : Nat
  presentationType : String
  theatreId : Nat
  theatreName : String
  showStart : Nat
  seatsRemaining : Nat
  isSoldOut : Bool
  seatMapUrl : String
  auditorium : String
  vistaSessionId : Nat
  experienceTypes : List String
  totalSeats : Option Nat
  occupiedSeats : Option Nat
  availableSeats : Option Nat
  occupancyPercentage : Option Nat
deriving DecidableEq, Repr

/-- The seat-availability payload consumed during enrichment.  The backend
handler always attaches all four statistics to a successful response (see
`computeSeatSnapshot`), so all four fields are total here. -/
structure SeatData where
  totalSeats : Nat
  occupiedSeats : Nat
  availableSeats : Nat
  occupancyPercentage : Nat
deriving DecidableEq, Repr

/-- Composite enrichment key `` `${theatreId}-${vistaSessionId}` ``. -/
def sessionKey (s : Session) : Nat × Nat := (s.theatreId, s.vistaSessionId)

/-- The comparator `(a, b) => new Date(a.showStartDateTime) - new Date(b.showStartDateTime)`
used to sort the copied session list (ascending start time). -/
def startRel (a b : Session) : Prop := a.showStart ≤ b.showStart

instance : DecidableRel startRel := fun a b => Nat.decLe a.showStart b.showStart

instance : IsTotal Session startRel := ⟨fun a b => Nat.le_total a.showStart b.showStart⟩

instance : IsTrans Session startRel := ⟨fun _ _ _ h h' => Nat.le_trans h h'⟩

/-- `[...allSessions].sort((a, b) => new Date(a.showStartDateTime) - new Date(b.showStartDateTime))`:
a stable sort of a copy of the session list by ascending start time. -/
def sortedSessions (l : List Session) : List Session := l.insertionSort startRel

/-- `sortedSessions.slice(0, M)` (the code uses `M = 200`). -/
def prioritySubset (M : Nat) (l : List Session) : List Session := (sortedSessions l).take M

/-- The entries written into `seatDataMap`: one per successful seat fetch of a
priority-subset session, in subset order, keyed by the composite key.  The
per-session fetch outcome is abstracted as `fetch : Session → Option SeatData`
(`none` = the fetch failed, which the code records with `success: false` and
then skips when building the map). -/
def seatEntries (subset : List Session) (fetch : Session → Option SeatData) :
    List ((Nat × Nat) × SeatData) :=
  subset.filterMap (fun s => (fetch s).map (fun d => (sessionKey s, d)))

/-- JS object lookup `seatDataMap[key]`: the last entry written for the key
wins (assignments in `forEach` order overwrite earlier ones). -/
def seatMapLookup (k : Nat × Nat) (m : List ((Nat × Nat) × SeatData)) : Option SeatData :=
  (m.reverse.find? (fun e => e.1 == k)).map (fun e => e.2)

/-- The per-session enrichment step: when the session's key is present in the
seat-data map, all four occupancy fields are assigned from the payload;
otherwise the session is left untouched. -/
def enrichSession (m : List ((Nat × Nat) × SeatData)) (s : Session) : Session :=
  match seatMapLookup (sessionKey s) m with
  | some d =>
      { s with totalSeats := some d.totalSeats, occupiedSeats := some d.occupiedSeats,
               availableSeats := some d.availableSeats,
               occupancyPercentage := some d.occupancyPercentage }
  | none => s

/-- Steps 4 of `loadTheatresAndShowtimes` with the subset cap as a parameter:
sort a copy by start time, take the first `M` sessions, fetch seat data for
them, and merge the successful results back onto the original full list by
composite key. -/
def enrichSessionsWith (M : Nat) (l : List Session) (fetch : Session → Option SeatData) :
    List Session :=
  l.map (enrichSession (seatEntries (prioritySubset M l) fetch))

/-- The enrichment step as the code runs it, with the literal cap `200`. -/
def enrichSessions (l : List Session) (fetch : Session → Option SeatData) : List Session :=
  enrichSessionsWith 200 l fetch

/-- All four occupancy fields absent. -/
def Unenriched (s : Session) : Prop :=
  s.totalSeats = none ∧ s.occupiedSeats = none ∧ s.availableSeats = none ∧
    s.occupancyPercentage = none

/-- All four occupancy fields present. -/
def FullyEnriched (s : Session) : Prop :=
  s.totalSeats.isSome ∧ s.occupiedSeats.isSome ∧ s.availableSeats.isSome ∧
    s.occupancyPercentage.isSome

instance (s : Session) : Decidable (Unenriched s) :=
  decidable_of_iff (s.totalSeats = none ∧ s.occupiedSeats = none ∧ s.availableSeats = none ∧
    s.occupancyPercentage = none) Iff.rfl

instance (s : Session) : Decidable (FullyEnriched s) :=
  decidable_of_iff (s.totalSeats.isSome ∧ s.occupiedSeats.isSome ∧ s.availableSeats.isSome ∧
    s.occupancyPercentage.isSome) Iff.rfl

/-- Enrichment never changes a session's composite key. -/
theorem sessionKey_enrichSession (m : List ((Nat × Nat) × SeatData)) (s : Session) :
    sessionKey (enrichSession m s) = sessionKey s := by
  unfold enrichSession
  cases seatMapLookup (sessionKey s) m <;> rfl

/-- Every key present in the seat-data map is the key of a subset session. -/
theorem seatMapLookup_some_key (k : Nat × Nat) (subset : List Session)
    (fetch : Session → Option SeatData) (d : SeatData)
    (h : seatMapLookup k (seatEntries subset fetch) = some d) :
    k ∈ subset.map sessionKey := by
  unfold seatMapLookup at h
  rcases Option.map_eq_some'.mp h with ⟨e, he, rfl⟩
  have hk : e.1 = k := by
    have := List.find?_some he
    simpa using this
  have hmem : e ∈ seatEntries subset fetch := List.mem_reverse.mp (List.mem_of_find?_eq_some he)
  rcases List.mem_filterMap.mp hmem with ⟨s', hs', hfs'⟩
  rcases Option.map_eq_some'.mp hfs' with ⟨d', _, hd'⟩
  have : sessionKey s' = k := by rw [← hk, ← hd']
  exact this ▸ List.mem_map_of_mem sessionKey hs'

/-- C7: after enrichment of a collector-produced session list (occupancy
fields initially absent), every session in the output has the four occupancy
fields either all present or all absent — never partially enriched, whatever
the subset cap and the per-session fetch outcomes were. -/
theorem enrich_all_or_nothing (M : Nat) (l : List Session)
    (fetch : Session → Option SeatData) (hclean : ∀ s ∈ l, Unenriched s) :
    ∀ t ∈ enrichSessionsWith M l fetch, FullyEnriched t ∨ Unenriched t := by
  intro t ht
  rcases List.mem_map.mp ht with ⟨t₀, ht₀, rfl⟩
  cases hl : seatMapLookup (sessionKey t₀) (seatEntries (prioritySubset M l) fetch) with
  | some d =>
      left
      simp [enrichSession, hl, FullyEnriched]
  | none =>
      right
      simpa [enrichSession, hl] using hclean t₀ ht₀

/-- Concrete input for the C7 witness: one clean session, successful fetch. -/
def c7session : Session :=
  { movieId := 1, movieName := "m", posterUrl := "", runtime := 100,
    presentationType := "", theatreId := 3, theatreName := "", showStart := 10,
    seatsRemaining := 5, isSoldOut := false, seatMapUrl := "", auditorium := "",
    vistaSessionId := 7, experienceTypes := [], totalSeats := none,
    occupiedSeats := none, availableSeats := none, occupancyPercentage := none }

/-- Fetch outcome for the C7 witness: every fetch succeeds. -/
def c7fetch : Session → Option SeatData := fun _ => some ⟨10, 4, 6, 40⟩

/-- The enriched session produced for `c7session`. -/
def c7enriched : Session :=
  { c7session with totalSeats := some 10, occupiedSeats := some 4,
                   availableSeats := some 6, occupancyPercentage := some 40 }

/-- Witness for C7 at a concrete input. -/
theorem enrich_all_or_nothing_witness : FullyEnriched c7enriched ∨ Unenriched c7enriched :=
  enrich_all_or_nothing 200 [c7session] c7fetch (by decide) c7enriched (by decide)

/-- C5: with subset cap `M`, sessions whose (distinct) composite key lands
outside the first `M` entries of the stable start-time sort never receive
occupancy fields: for every session `s` in the dropped tail of the sorted
copy, the output session with `s`'s key is still unenriched, whatever the
fetch outcomes.  (Distinctness of the composite keys is the data-model
invariant "composite identity for enrichment lookup = (theatreId, sessionId)".) -/
theorem enrich_outside_subset (M : Nat) (l : List Session)
    (fetch : Session → Option SeatData)
    (hnd : (l.map sessionKey).Nodup) (hclean : ∀ s ∈ l, Unenriched s) :
    ∀ s ∈ (sortedSessions l).drop M, ∀ t ∈ enrichSessionsWith M l fetch,
      sessionKey t = sessionKey s → Unenriched t := by
  intro s hs t ht hkey
  rcases List.mem_map.mp ht with ⟨t₀, ht₀, rfl⟩
  have hkey₀ : sessionKey t₀ = sessionKey s := by
    rwa [sessionKey_enrichSession] at hkey
  cases hl : seatMapLookup (sessionKey t₀) (seatEntries (prioritySubset M l) fetch) with
  | none => simpa [enrichSession, hl] using hclean t₀ ht₀
  | some d =>
      exfalso
      have hk1 : sessionKey t₀ ∈ (prioritySubset M l).map sessionKey :=
        seatMapLookup_some_key _ _ _ _ hl
      have hk2 : sessionKey s ∈ ((sortedSessions l).drop M).map sessionKey :=
        List.mem_map_of_mem sessionKey hs
      have hperm : List.Perm ((sortedSessions l).map sessionKey) (l.map sessionKey) :=
        (List.perm_insertionSort startRel l).map sessionKey
      have hnd' : ((sortedSessions l).map sessionKey).Nodup := hperm.nodup_iff.mpr hnd
      have hsplit : (sortedSessions l).map sessionKey =
          ((sortedSessions l).take M).map sessionKey ++
            ((sortedSessions l).drop M).map sessionKey := by
        rw [← List.map_append, List.take_append_drop]
      rw [hsplit] at hnd'
      have hdisj := (List.nodup_append.mp hnd').2.2
      exact hdisj (hkey₀ ▸ hk1) hk2

/-- Concrete sessions for the C5 witness: two distinct keys, cap `M = 1`. -/
def c5session1 : Session :=
  { c7session with theatreId := 1, vistaSessionId := 1, showStart := 10 }

/-- Second C5 session: starts later, so it falls outside the cap-1 subset. -/
def c5session2 : Session :=
  { c7session with theatreId := 1, vistaSessionId := 2, showStart := 20 }

/-- Fetch outcome for the C5 witness: every fetch succeeds. -/
def c5fetch : Session → Option SeatData := fun _ => some ⟨10, 5, 5, 50⟩

/-- Witness for C5 at a concrete input: with cap 1, the later-starting session
stays unenriched even though every fetch succeeds. -/
theorem enrich_outside_subset_witness : Unenriched c5session2 :=
  enrich_outside_subset 1 [c5session1, c5session2] c5fetch (by decide) (by decide)
    c5session2 (by decide) c5session2 (by decide) rfl

/-! ## Movie grouping and ranking (Steps 5–7 of `loadTheatresAndShowtimes`)

Sessions are grouped by `movieId` into a plain object keyed by the string
`` `${session.movieId}` ``.  With numeric movie ids these keys are canonical
integer strings, so `Object.values(movieGroups)` enumerates the groups in
ascending numeric `movieId` order — not in the order the groups were formed
(key insertion order).  Per group the code computes the aggregate metrics
below and finally sorts the group records with the ranking comparator (a
stable sort). -/

/-- Movie ids in first-seen order: the order in which the groups are created
(keys inserted) in the `movieGroups` object.  This is *not* the order
`Object.values` enumerates them — integer-like keys enumerate in ascending
numeric order (`objectValuesIds`). -/
def firstSeenIds (l : List Session) : List Nat :=
  l.foldl (fun acc s => if s.movieId ∈ acc then acc else acc ++ [s.movieId]) []

/-- The distinct movie ids in the order `Object.values(movieGroups)` yields
the groups: ascending numeric order of the integer-string keys. -/
def objectValuesIds (l : List Session) : List Nat :=
  (firstSeenIds l).insertionSort (fun a b => a ≤ b)

/-- `availableCount`: sessions of the group that are not sold out. -/
def availableCount (g : List Session) : Nat :=
  (g.filter (fun s => !s.isSoldOut)).length

/-- `movie.showtimes.filter(s => s.occupancyPercentage !== undefined)`. -/
def withSeatData (g : List Session) : List Session :=
  g.filter (fun s => s.occupancyPercentage.isSome)

/-- `averageOccupancy`: `Math.round` of the mean of `occupancyPercentage`
over the sessions with seat data; `undefined` when no session has data. -/
def averageOccupancy (g : List Session) : Option Nat :=
  let ws := withSeatData g
  if 0 < ws.length then
    some (jsRound (ws.foldl (fun sum s => sum + s.occupancyPercentage.getD 0) 0) ws.length)
  else none

/-- The sum `movie.showtimes.filter(s => s.occupiedSeats !== undefined)
  .reduce((sum, s) => sum + s.occupiedSeats, 0)`. -/
def totalSeatsBookedSum (g : List Session) : Nat :=
  (g.filter (fun s => s.occupiedSeats.isSome)).foldl
    (fun sum s => sum + s.occupiedSeats.getD 0) 0

/-- The sum `movie.showtimes.filter(s => s.totalSeats !== undefined)
  .reduce((sum, s) => sum + s.totalSeats, 0)`. -/
def totalSeatsAvailableSum (g : List Session) : Nat :=
  (g.filter (fun s => s.totalSeats.isSome)).foldl
    (fun sum s => sum + s.totalSeats.getD 0) 0

/-- The record field `totalSeatsBooked: totalSeatsBooked > 0 ? totalSeatsBooked : undefined`. -/
def totalSeatsBooked (g : List Session) : Option Nat :=
  if 0 < totalSeatsBookedSum g then some (totalSeatsBookedSum g) else none

/-- The record field `totalSeatsAvailable: totalSeatsAvailable > 0 ? totalSeatsAvailable : undefined`. -/
def totalSeatsAvailable (g : List Session) : Option Nat :=
  if 0 < totalSeatsAvailableSum g then some (totalSeatsAvailableSum g) else none

/-- `movie.showtimes.reduce((earliest, current) => currentDate < earliestDate
? current : earliest)`: the start time of the first-encountered minimum.
(Groups are always non-empty; the `[]` case is unreachable.) -/
def earliestShowtime : List Session → Nat
  | [] => 0
  | s :: rest =>
      (rest.foldl (fun earliest current =>
        if current.showStart < earliest.showStart then current else earliest) s).showStart

/-- The per-movie ranking record produced in Step 6. -/
structure MovieRanking where
  movieId : Nat
  name : String
  posterUrl : String
  runtime : Nat
  presentationType : String
  showtimes : List Session
  availableCount : Nat
  averageOccupancy : Option Nat
  totalSeatsBooked : Option Nat
  totalSeatsAvailable : Option Nat
  earliestShowtime : Nat
deriving DecidableEq, Repr

/-- Build one ranking record from a movie's session group: display metadata
from the first session of the group (the session that created the group),
aggregate metrics over the whole group. -/
def mkRanking : List Session → MovieRanking
  | [] => ⟨0, "", "", 0, "", [], 0, none, none, none, 0⟩
  | s :: rest =>
      { movieId := s.movieId, name := s.movieName, posterUrl := s.posterUrl,
        runtime := s.runtime, presentationType := s.presentationType,
        showtimes := s :: rest,
        availableCount := availableCount (s :: rest),
        averageOccupancy := averageOccupancy (s :: rest),
        totalSeatsBooked := totalSeatsBooked (s :: rest),
        totalSeatsAvailable := totalSeatsAvailable (s :: rest),
        earliestShowtime := earliestShowtime (s :: rest) }

/-- Step 5: group the session list by movie id; `Object.values` yields the
groups in ascending `movieId` order, each group's sessions in list order. -/
def groupSessions (l : List Session) : List (List Session) :=
  (objectValuesIds l).map (fun k => l.filter (fun s => s.movieId == k))

/-- The list of ranking records before the final sort
(`Object.values(movieGroups).map(...)`). -/
def preRank (l : List Session) : List MovieRanking :=
  (groupSessions l).map mkRanking

/-- The Step-7 comparator, translated clause by clause:

```js
if (a.averageOccupancy !== undefined && b.averageOccupancy === undefined) return -1;
if (a.averageOccupancy === undefined && b.averageOccupancy !== undefined) return 1;
if (a.averageOccupancy !== undefined && b.averageOccupancy !== undefined) {
  if (a.averageOccupancy !== b.averageOccupancy) {
    return b.averageOccupancy - a.averageOccupancy;
  }
}
return new Date(a.earliestShowtime) - new Date(b.earliestShowtime);
``` -/
def rankCmp (a b : MovieRanking) : Int :=
  if a.averageOccupancy ≠ none ∧ b.averageOccupancy = none then -1
  else if a.averageOccupancy = none ∧ b.averageOccupancy ≠ none then 1
  else if a.averageOccupancy ≠ none ∧ b.averageOccupancy ≠ none ∧
      a.averageOccupancy ≠ b.averageOccupancy then
    (b.averageOccupancy.getD 0 : Int) - (a.averageOccupancy.getD 0 : Int)
  else (a.earliestShowtime : Int) - (b.earliestShowtime : Int)

/-- The non-strict order induced by the comparator: `a` may come before `b`. -/
def rankRel (a b : MovieRanking) : Prop := rankCmp a b ≤ 0

instance : DecidableRel rankRel := fun a b => inferInstanceAs (Decidable (rankCmp a b ≤ 0))

/-- Sort key equivalent to the comparator's primary clause: defined averages
(as negated values, so larger sorts first) precede the undefined marker `1`
(every negated `Nat` is `≤ 0 < 1`). -/
def rkey (a : MovieRanking) : Int :=
  match a.averageOccupancy with
  | some x => -(x : Int)
  | none => 1

/-- The comparator is the lexicographic order on `(rkey, earliestShowtime)`. -/
theorem rankCmp_le_iff (a b : MovieRanking) :
    rankCmp a b ≤ 0 ↔
      (rkey a < rkey b ∨ (rkey a = rkey b ∧ a.earliestShowtime ≤ b.earliestShowtime)) := by
  rcases ha : a.averageOccupancy with _ | x <;> rcases hb : b.averageOccupancy with _ | y
  · simp [rankCmp, rkey, ha, hb]
    try omega
  · simp [rankCmp, rkey, ha, hb]
    try omega
  · simp [rankCmp, rkey, ha, hb]
    try omega
  · simp [rankCmp, rkey, ha, hb]
    by_cases hxy : x = y
    · subst hxy
      simp
      try omega
    · simp [hxy]
      try omega

instance : IsTotal MovieRanking rankRel :=
  ⟨fun a b => by
    unfold rankRel
    rw [rankCmp_le_iff, rankCmp_le_iff]
    omega⟩

instance : IsTrans MovieRanking rankRel :=
  ⟨fun a b c hab hbc => by
    unfold rankRel at hab hbc ⊢
    rw [rankCmp_le_iff] at hab hbc ⊢
    omega⟩

/-- The ranking order as the spec states it: a defined average precedes an
undefined one; among two defined averages the higher value comes first and
equal values fall back to earliest start ascending; two undefined averages
order by earliest start ascending. -/
def specRank (a b : MovieRanking) : Prop :=
  match a.averageOccupancy, b.averageOccupancy with
  | some _, none => True
  | none, some _ => False
  | some x, some y => y < x ∨ (x = y ∧ a.earliestShowtime ≤ b.earliestShowtime)
  | none, none => a.earliestShowtime ≤ b.earliestShowtime

/-- The spec's three ranking rules coincide with the comparator's order. -/
theorem specRank_iff_rankRel (a b : MovieRanking) : specRank a b ↔ rankRel a b := by
  unfold specRank rankRel
  rw [rankCmp_le_iff]
  unfold rkey
  rcases ha : a.averageOccupancy with _ | x <;> rcases hb : b.averageOccupancy with _ | y <;>
    simp <;> omega

/-- Step 7: `rankedMovies.sort(comparator)` — a stable sort of the group
records by the comparator. -/
def rankMovies (l : List Session) : List MovieRanking :=
  (preRank l).insertionSort rankRel

/-- The first-seen id list never repeats an id. -/
theorem firstSeenIds_nodup (l : List Session) : (firstSeenIds l).Nodup := by
  suffices h : ∀ acc : List Nat, acc.Nodup →
      (l.foldl (fun acc s => if s.movieId ∈ acc then acc else acc ++ [s.movieId]) acc).Nodup by
    exact h [] List.nodup_nil
  induction l with
  | nil => exact fun acc hacc => hacc
  | cons s ls ih =>
    intro acc hacc
    rw [List.foldl_cons]
    by_cases hmem : s.movieId ∈ acc
    · rw [if_pos hmem]
      exact ih acc hacc
    · rw [if_neg hmem]
      refine ih _ (List.nodup_append.mpr ⟨hacc, List.nodup_singleton _, ?_⟩)
      intro a ha hb
      rw [List.mem_singleton] at hb
      subst hb
      exact hmem ha

/-- Every first-seen id is the movie id of some session of the list. -/
theorem firstSeenIds_covered (l : List Session) (k : Nat) :
    k ∈ firstSeenIds l → ∃ s ∈ l, s.movieId = k := by
  suffices h : ∀ acc : List Nat,
      k ∈ l.foldl (fun acc s => if s.movieId ∈ acc then acc else acc ++ [s.movieId]) acc →
      k ∈ acc ∨ ∃ s ∈ l, s.movieId = k by
    intro hk
    rcases h [] hk with h' | h'
    · exact absurd h' (List.not_mem_nil k)
    · exact h'
  induction l with
  | nil => exact fun acc h => Or.inl h
  | cons s ls ih =>
    intro acc h
    rw [List.foldl_cons] at h
    by_cases hmem : s.movieId ∈ acc
    · rw [if_pos hmem] at h
      rcases ih acc h with h' | ⟨t, ht, htk⟩
      · exact Or.inl h'
      · exact Or.inr ⟨t, List.mem_cons_of_mem _ ht, htk⟩
    · rw [if_neg hmem] at h
      rcases ih (acc ++ [s.movieId]) h with h' | ⟨t, ht, htk⟩
      · rcases List.mem_append.mp h' with h'' | h''
        · exact Or.inl h''
        · exact Or.inr ⟨s, List.mem_cons_self _ _, (List.mem_singleton.mp h'').symm⟩
      · exact Or.inr ⟨t, List.mem_cons_of_mem _ ht, htk⟩

/-- A group filtered for an id carried by some session yields a record with
that movie id (its metadata comes from the group's first session). -/
theorem mkRanking_filter_movieId (l : List Session) (k : Nat)
    (h : ∃ s ∈ l, s.movieId = k) :
    (mkRanking (l.filter (fun s => s.movieId == k))).movieId = k := by
  rcases h with ⟨s, hs, hsk⟩
  have hmem : s ∈ l.filter (fun s => s.movieId == k) :=
    List.mem_filter.mpr ⟨hs, by simp [hsk]⟩
  cases hf : l.filter (fun s => s.movieId == k) with
  | nil =>
      rw [hf] at hmem
      exact absurd hmem (List.not_mem_nil s)
  | cons t ts =>
      have ht : t ∈ l.filter (fun s => s.movieId == k) := by
        rw [hf]
        exact List.mem_cons_self _ _
      have htk := (List.mem_filter.mp ht).2
      rw [beq_iff_eq] at htk
      show (mkRanking (t :: ts)).movieId = k
      exact htk

/-- The pre-sort group records appear in strictly ascending `movieId` order:
the `Object.values` enumeration of integer-string keys. -/
theorem preRank_movieId_ascending (l : List Session) :
    List.Pairwise (fun a b : MovieRanking => a.movieId < b.movieId) (preRank l) := by
  unfold preRank groupSessions
  rw [List.map_map, List.pairwise_map]
  have hsorted : List.Pairwise (fun a b : Nat => a ≤ b) (objectValuesIds l) :=
    List.sorted_insertionSort (fun a b : Nat => a ≤ b) (firstSeenIds l)
  have hnodup : (objectValuesIds l).Nodup :=
    (List.perm_insertionSort (fun a b : Nat => a ≤ b) (firstSeenIds l)).nodup_iff.mpr
      (firstSeenIds_nodup l)
  have hlt : List.Pairwise (fun a b : Nat => a < b) (objectValuesIds l) :=
    (hsorted.and hnodup).imp (fun h => Nat.lt_of_le_of_ne h.1 h.2)
  refine List.Pairwise.imp_of_mem ?_ hlt
  intro a b ha hb hab
  have hca := firstSeenIds_covered l a
    ((List.mem_insertionSort (fun a b : Nat => a ≤ b)).mp ha)
  have hcb := firstSeenIds_covered l b
    ((List.mem_insertionSort (fun a b : Nat => a ≤ b)).mp hb)
  show (mkRanking (l.filter (fun s => s.movieId == a))).movieId <
    (mkRanking (l.filter (fun s => s.movieId == b))).movieId
  rw [mkRanking_filter_movieId l a hca, mkRanking_filter_movieId l b hcb]
  exact hab

/-- C1 (amended): for every session list, the ranked movie list is a
permutation of the group records that is ordered by the spec's three rules
(defined average before undefined; among defined, higher average first;
remaining ties — equal defined averages or both undefined — by earliest
start ascending), and the sort is stable with respect to the order in which
`Object.values` enumerates the grouping object: ascending `movieId` (the
integer-string keys enumerate numerically), *not* the order in which the
groups were formed. -/
theorem rankMovies_ordering (l : List Session) :
    List.Perm (rankMovies l) (preRank l) ∧
    List.Pairwise specRank (rankMovies l) ∧
    (∀ a b : MovieRanking, rankCmp a b = 0 → List.Sublist [a, b] (preRank l) →
      List.Sublist [a, b] (rankMovies l)) ∧
    List.Pairwise (fun a b : MovieRanking => a.movieId < b.movieId) (preRank l) := by
  refine ⟨List.perm_insertionSort rankRel (preRank l), ?_, ?_, preRank_movieId_ascending l⟩
  · have h := List.sorted_insertionSort rankRel (preRank l)
    exact List.Pairwise.imp (fun hab => (specRank_iff_rankRel _ _).mpr hab) h
  · intro a b h hsub
    exact List.pair_sublist_insertionSort (show rankRel a b by unfold rankRel; omega) hsub

/-- First C1 witness session: movie 2, unenriched. -/
def c1sessionA : Session :=
  { c7session with movieId := 2, showStart := 50, theatreId := 9, vistaSessionId := 1 }

/-- Second C1 witness session: movie 1, same start time, unenriched. -/
def c1sessionB : Session :=
  { c7session with movieId := 1, showStart := 50, theatreId := 9, vistaSessionId := 2 }

/-- The group record of movie 2 in the C1 witness. -/
def c1rankA : MovieRanking := mkRanking [c1sessionA]

/-- The group record of movie 1 in the C1 witness. -/
def c1rankB : MovieRanking := mkRanking [c1sessionB]

/-- Counterexample to C1 as stated: the two groups are formed with movie 2
first (its session comes first), they tie completely under the comparator,
yet the ranked output lists movie 1 before movie 2 — `Object.values`
enumerated the integer keys ascending, so the stable sort preserves
ascending-id order, not group-formation order. -/
theorem rankMovies_formation_order_counterexample :
    firstSeenIds [c1sessionA, c1sessionB] = [2, 1] ∧
    rankCmp c1rankA c1rankB = 0 ∧
    rankMovies [c1sessionA, c1sessionB] = [c1rankB, c1rankA] := by
  refine ⟨by decide, by decide, by decide⟩

/-- Witness for the amended C1 at a concrete input: the two groups tie (no
occupancy data, same earliest start), and the ranked output keeps their
enumeration order, movie 1 before movie 2 (ascending ids). -/
theorem rankMovies_ordering_witness :
    List.Sublist [c1rankB, c1rankA] (rankMovies [c1sessionA, c1sessionB]) :=
  (rankMovies_ordering [c1sessionA, c1sessionB]).2.2.1 c1rankB c1rankA (by decide) (by decide)

/-- `reduce((sum, s) => sum + f(s), init)` is `init` plus the sum of the
mapped values. -/
theorem foldl_add_eq_sum (f : Session → Nat) (l : List Session) (init : Nat) :
    l.foldl (fun sum s => sum + f s) init = init + (l.map f).sum := by
  induction l generalizing init with
  | nil => simp
  | cons x xs ih =>
      rw [List.foldl_cons, ih, List.map_cons, List.sum_cons]
      omega

/-- C2: for every movie group, `averageOccupancy` is `undefined` exactly when
no session of the group carries occupancy data; otherwise it is the mean of
`occupancyPercentage` over exactly the sessions that carry data, rounded to
the nearest integer — sessions without data are excluded from the mean, not
counted as zero. -/
theorem averageOccupancy_spec (g : List Session) :
    (averageOccupancy g = none ↔ ∀ s ∈ g, s.occupancyPercentage = none) ∧
    (∀ n : Nat, averageOccupancy g = some n →
      (n : ℤ) = round
        ((((withSeatData g).map (fun s => (s.occupancyPercentage.getD 0 : ℚ))).sum) /
          ((withSeatData g).length : ℚ))) := by
  have hiff : (∀ s ∈ g, s.occupancyPercentage = none) ↔ (withSeatData g).length = 0 := by
    rw [List.length_eq_zero]
    unfold withSeatData
    rw [List.filter_eq_nil_iff]
    constructor
    · intro h a ha
      simp [h a ha]
    · intro h s hs
      have := h s hs
      simpa using this
  constructor
  · constructor
    · intro h
      unfold averageOccupancy at h
      by_cases hl : 0 < (withSeatData g).length
      · rw [if_pos hl] at h
        exact absurd h (by simp)
      · exact hiff.mpr (by omega)
    · intro h
      unfold averageOccupancy
      rw [if_neg (by have := hiff.mp h; omega)]
  · intro n hn
    unfold averageOccupancy at hn
    by_cases hl : 0 < (withSeatData g).length
    · rw [if_pos hl] at hn
      have hn' : jsRound ((withSeatData g).foldl
          (fun sum s => sum + s.occupancyPercentage.getD 0) 0) (withSeatData g).length = n := by
        exact Option.some.inj hn
      subst hn'
      rw [foldl_add_eq_sum, Nat.zero_add, jsRound_eq_round _ _ hl]
      congr 1
      rw [Nat.cast_list_sum, List.map_map]
      rfl
    · rw [if_neg hl] at hn
      exact absurd hn (by simp)

/-- Session with occupancy data for the C2 witness. -/
def c2sessionA : Session :=
  { c7session with totalSeats := some 100, occupiedSeats := some 80,
                   availableSeats := some 20, occupancyPercentage := some 80 }

/-- Group for the C2 witness: one session with data (80%), one without. -/
def c2group : List Session := [c2sessionA, c7session]

/-- Witness for C2 at a concrete input: the average over the group is 80 —
the single data point — not 40, so the data-less session is excluded from
the mean rather than counted as zero. -/
theorem averageOccupancy_spec_witness :
    averageOccupancy c2group = some 80 ∧
    ((80 : ℤ) = round
      ((((withSeatData c2group).map (fun s => (s.occupancyPercentage.getD 0 : ℚ))).sum) /
        ((withSeatData c2group).length : ℚ))) :=
  ⟨by decide, (averageOccupancy_spec c2group).2 80 (by decide)⟩

/-- C8: for every movie group, `totalSeatsBooked` (resp. `totalSeatsAvailable`)
is the sum of `occupiedSeats` (resp. `totalSeats`) over the group's sessions
carrying that datum, and is left `undefined` exactly when that sum is zero. -/
theorem seatTotals_spec (g : List Session) :
    (totalSeatsBooked g =
      if ((g.filter (fun s => s.occupiedSeats.isSome)).map
            (fun s => s.occupiedSeats.getD 0)).sum = 0
      then none
      else some ((g.filter (fun s => s.occupiedSeats.isSome)).map
            (fun s => s.occupiedSeats.getD 0)).sum) ∧
    (totalSeatsAvailable g =
      if ((g.filter (fun s => s.totalSeats.isSome)).map
            (fun s => s.totalSeats.getD 0)).sum = 0
      then none
      else some ((g.filter (fun s => s.totalSeats.isSome)).map
            (fun s => s.totalSeats.getD 0)).sum) := by
  constructor
  · unfold totalSeatsBooked totalSeatsBookedSum
    rw [foldl_add_eq_sum, Nat.zero_add]
    rcases Nat.eq_zero_or_pos (((g.filter (fun s => s.occupiedSeats.isSome)).map
        (fun s => s.occupiedSeats.getD 0)).sum) with h | h
    · rw [h]
      simp
    · rw [if_pos h, if_neg (by omega)]
  · unfold totalSeatsAvailable totalSeatsAvailableSum
    rw [foldl_add_eq_sum, Nat.zero_add]
    rcases Nat.eq_zero_or_pos (((g.filter (fun s => s.totalSeats.isSome)).map
        (fun s => s.totalSeats.getD 0)).sum) with h | h
    · rw [h]
      simp
    · rw [if_pos h, if_neg (by omega)]

/-! ## Theatre deduplication (Step 1 of `loadTheatresAndShowtimes`)

Per search area the theatre lookup either fails (the `catch` logs and the
area is skipped) or returns a theatre list; each returned theatre is appended
to `allTheatres` unless its `theatreId` is already in the `seenTheatreIds`
set.  An area outcome is modelled as `Option (List Theatre)` (`none` = the
per-area fetch threw), and the `(seenTheatreIds, allTheatres)` pair is
threaded through the loops explicitly. -/
structure Theatre where
  theatreId : Nat
  name : String
  location : String
deriving DecidableEq, Repr

/-- The loop body over one returned theatre:
`if (!seenTheatreIds.has(id)) { seenTheatreIds.add(id); allTheatres.push(theatre); }`. -/
def addTheatre (st : List Nat × List Theatre) (t : Theatre) : List Nat × List Theatre :=
  if t.theatreId ∈ st.1 then st else (t.theatreId :: st.1, st.2 ++ [t])

/-- The whole Step-1 loop: areas in order, failed areas skipped, theatres of
each successful area in order. -/
def mergeTheatres (areaResults : List (Option (List Theatre))) : List Theatre :=
  (areaResults.foldl (fun st res =>
    match res with
    | none => st
    | some ts => ts.foldl addTheatre st) ([], [])).2

/-- All theatres returned across areas, in processing order. -/
def flatTheatres (areaResults : List (Option (List Theatre))) : List Theatre :=
  (areaResults.filterMap id).flatten

/-- Reference formulation of first-occurrence deduplication: keep a theatre
exactly when its id has not been seen before. -/
def dedupFirst : List Theatre → List Nat → List Theatre
  | [], _ => []
  | t :: ts, seen =>
      if t.theatreId ∈ seen then dedupFirst ts seen
      else t :: dedupFirst ts (t.theatreId :: seen)

/-- Unfolding of `dedupFirst` when the head's id was already seen. -/
theorem dedupFirst_cons_mem (t : Theatre) (ts : List Theatre) (seen : List Nat)
    (h : t.theatreId ∈ seen) : dedupFirst (t :: ts) seen = dedupFirst ts seen := by
  simp [dedupFirst, h]

/-- Unfolding of `dedupFirst` when the head's id is fresh. -/
theorem dedupFirst_cons_not_mem (t : Theatre) (ts : List Theatre) (seen : List Nat)
    (h : t.theatreId ∉ seen) :
    dedupFirst (t :: ts) seen = t :: dedupFirst ts (t.theatreId :: seen) := by
  simp [dedupFirst, h]

/-- Folding `addTheatre` appends exactly the not-yet-seen first occurrences,
and the seen-set tracks the accumulated ids. -/
theorem foldl_addTheatre_eq (l : List Theatre) (st : List Nat × List Theatre) :
    (l.foldl addTheatre st).2 = st.2 ++ dedupFirst l st.1 ∧
    (∀ i, i ∈ (l.foldl addTheatre st).1 ↔
      i ∈ st.1 ∨ i ∈ (dedupFirst l st.1).map Theatre.theatreId) := by
  induction l generalizing st with
  | nil => simp [dedupFirst]
  | cons t ts ih =>
    by_cases hmem : t.theatreId ∈ st.1
    · rw [List.foldl_cons, show addTheatre st t = st from if_pos hmem,
        dedupFirst_cons_mem t ts st.1 hmem]
      exact ih st
    · rw [List.foldl_cons, show addTheatre st t = (t.theatreId :: st.1, st.2 ++ [t]) from
        if_neg hmem, dedupFirst_cons_not_mem t ts st.1 hmem]
      obtain ⟨ih1, ih2⟩ := ih (t.theatreId :: st.1, st.2 ++ [t])
      constructor
      · rw [ih1]
        simp
      · intro i
        rw [ih2 i]
        simp only [List.mem_cons, List.map_cons]
        constructor
        · rintro (⟨h | h⟩ | h)
          · exact Or.inr (Or.inl h)
          · exact Or.inl h
          · exact Or.inr (Or.inr h)
        · rintro (h | h | h)
          · exact Or.inl (Or.inr h)
          · exact Or.inl (Or.inl h)
          · exact Or.inr h

/-- The nested Step-1 loops equal one pass of `addTheatre` over the flat
theatre sequence. -/
theorem mergeTheatres_eq_foldl (rs : List (Option (List Theatre))) (st : List Nat × List Theatre) :
    rs.foldl (fun st res =>
      match res with
      | none => st
      | some ts => ts.foldl addTheatre st) st = (flatTheatres rs).foldl addTheatre st := by
  induction rs generalizing st with
  | nil => rfl
  | cons r rs ih =>
    cases r with
    | none =>
        rw [List.foldl_cons]
        rw [show flatTheatres (none :: rs) = flatTheatres rs from rfl]
        exact ih st
    | some ts =>
        rw [List.foldl_cons]
        rw [show flatTheatres (some ts :: rs) = ts ++ flatTheatres rs from by
          simp [flatTheatres]]
        rw [List.foldl_append]
        exact ih (ts.foldl addTheatre st)

/-- Every kept id is fresh relative to the starting seen-set, and the kept
ids are mutually distinct. -/
theorem dedupFirst_nodup (l : List Theatre) (seen : List Nat) :
    ((dedupFirst l seen).map Theatre.theatreId).Nodup ∧
    (∀ i ∈ (dedupFirst l seen).map Theatre.theatreId, i ∉ seen) := by
  induction l generalizing seen with
  | nil => simp [dedupFirst]
  | cons t ts ih =>
    by_cases hmem : t.theatreId ∈ seen
    · rw [dedupFirst_cons_mem t ts seen hmem]
      exact ih seen
    · rw [dedupFirst_cons_not_mem t ts seen hmem]
      obtain ⟨ih1, ih2⟩ := ih (t.theatreId :: seen)
      refine ⟨List.nodup_cons.mpr ⟨?_, ih1⟩, ?_⟩
      · intro hc
        exact (ih2 _ hc) (List.mem_cons_self _ _)
      · intro i hi
        rw [List.map_cons] at hi
        rcases List.mem_cons.mp hi with h' | h'
        · rw [h']
          exact hmem
        · intro hs
          exact (ih2 i h') (List.mem_cons_of_mem _ hs)

/-- Every listed theatre's id appears among the kept ids (or was seen before). -/
theorem dedupFirst_covers (l : List Theatre) (seen : List Nat) :
    ∀ t ∈ l, t.theatreId ∈ seen ∨ t.theatreId ∈ (dedupFirst l seen).map Theatre.theatreId := by
  induction l generalizing seen with
  | nil => simp
  | cons t ts ih =>
    intro u hu
    by_cases hmem : t.theatreId ∈ seen
    · rw [dedupFirst_cons_mem t ts seen hmem]
      rcases List.mem_cons.mp hu with h' | h'
      · rw [h']
        exact Or.inl hmem
      · exact ih seen u h'
    · rw [dedupFirst_cons_not_mem t ts seen hmem]
      rcases List.mem_cons.mp hu with h' | h'
      · rw [h']
        exact Or.inr (by simp)
      · rcases ih (t.theatreId :: seen) u h' with h'' | h''
        · rcases List.mem_cons.mp h'' with h3 | h3
          · exact Or.inr (by simp [h3])
          · exact Or.inl h3
        · exact Or.inr (by simp [h''])

/-- Each kept theatre is the first occurrence of its id in the input list. -/
theorem dedupFirst_first_occurrence (l : List Theatre) (seen : List Nat) :
    ∀ u ∈ dedupFirst l seen, l.find? (fun v => v.theatreId == u.theatreId) = some u := by
  induction l generalizing seen with
  | nil => simp [dedupFirst]
  | cons t ts ih =>
    intro u hu
    by_cases hmem : t.theatreId ∈ seen
    · rw [dedupFirst_cons_mem t ts seen hmem] at hu
      have hfresh := (dedupFirst_nodup ts seen).2 u.theatreId
        (List.mem_map_of_mem Theatre.theatreId hu)
      have hne : ¬ t.theatreId = u.theatreId := by
        intro h
        exact hfresh (h ▸ hmem)
      rw [List.find?_cons_of_neg _ (by simp [hne])]
      exact ih seen u hu
    · rw [dedupFirst_cons_not_mem t ts seen hmem] at hu
      rcases List.mem_cons.mp hu with h' | h'
      · rw [h']
        exact List.find?_cons_of_pos _ (by simp)
      · have hfresh := (dedupFirst_nodup ts (t.theatreId :: seen)).2 u.theatreId
          (List.mem_map_of_mem Theatre.theatreId h')
        have hne : ¬ t.theatreId = u.theatreId := by
          intro h
          exact hfresh (by rw [← h]; exact List.mem_cons_self _ _)
        rw [List.find?_cons_of_neg _ (by simp [hne])]
        exact ih (t.theatreId :: seen) u h'

/-- C9: for every sequence of per-area lookup outcomes, the merged theatre
list has pairwise-distinct theatre ids, contains the id of every theatre any
area returned, and keeps for each id the first theatre encountered in
area-processing order. -/
theorem mergeTheatres_spec (rs : List (Option (List Theatre))) :
    ((mergeTheatres rs).map Theatre.theatreId).Nodup ∧
    (∀ t ∈ flatTheatres rs, t.theatreId ∈ (mergeTheatres rs).map Theatre.theatreId) ∧
    (∀ u ∈ mergeTheatres rs,
      (flatTheatres rs).find? (fun v => v.theatreId == u.theatreId) = some u) := by
  have hm : mergeTheatres rs = dedupFirst (flatTheatres rs) [] := by
    unfold mergeTheatres
    rw [mergeTheatres_eq_foldl]
    rw [(foldl_addTheatre_eq (flatTheatres rs) ([], [])).1]
    simp
  refine ⟨?_, ?_, ?_⟩
  · rw [hm]
    exact (dedupFirst_nodup (flatTheatres rs) []).1
  · intro t ht
    rw [hm]
    rcases dedupFirst_covers (flatTheatres rs) [] t ht with h | h
    · exact absurd h (List.not_mem_nil _)
    · exact h
  · intro u hu
    rw [hm] at hu
    exact dedupFirst_first_occurrence (flatTheatres rs) [] u hu

/-- First theatre with id 100 for the C9 witness. -/
def c9theatreA : Theatre := ⟨100, "X", "loc1"⟩

/-- Second theatre with id 100 (different metadata) for the C9 witness. -/
def c9theatreB : Theatre := ⟨100, "X-dup", "loc2"⟩

/-- Witness for C9 at a concrete input: two areas both return id 100; the
merged list keeps exactly the first occurrence. -/
theorem mergeTheatres_spec_witness :
    (flatTheatres [some [c9theatreA], some [c9theatreB]]).find?
      (fun v => v.theatreId == c9theatreA.theatreId) = some c9theatreA :=
  (mergeTheatres_spec [some [c9theatreA], some [c9theatreB]]).2.2 c9theatreA (by decide)

/-! ## Bounded-concurrency batch-fetch runner (`fetchShowtimesForTheatres`
and `fetchSeatAvailabilityBatch` of the API service)

Both functions share one structure: copy the input into a mutable `queue`;
start `Math.min(concurrency, items.length)` workers, each running
`processNext` (`if queue empty, return; shift an item; await its fetch;
push a tagged result; recurse`); `await Promise.all(workers)`; return the
results.  The event loop interleaves the workers arbitrarily between `await`
points, so the runner is modelled as a small-step transition system:

* a state holds the remaining `queue`, the multiset of items currently being
  fetched (`inFlight`), the number of workers at the loop head (`idle`), and
  the `results` pushed so far;
* `pop`: an idle worker shifts the queue head and starts its fetch;
* `finish`: an idle worker sees an empty queue and terminates;
* `complete`: an in-flight fetch resolves; the worker pushes the item's
  tagged result (`success` with the value, or `success: false` with the
  error reason — the deterministic per-item outcome is `op`) and returns to
  the loop head.

A run is complete (`RunnerDone`) when no worker remains idle or in flight;
done states have no successors (`runnerDone_no_step`). -/
instance {ε γ : Type} [DecidableEq ε] [DecidableEq γ] : DecidableEq (Except ε γ) := fun a b =>
  match a, b with
  | .error e, .error f => decidable_of_iff (e = f) (by simp)
  | .error _, .ok _ => isFalse (by simp)
  | .ok _, .error _ => isFalse (by simp)
  | .ok v, .ok w => decidable_of_iff (v = w) (by simp)

/-- One tagged result record pushed by a worker. -/
structure RunResult (α β : Type) where
  item : α
  outcome : Except String β
deriving DecidableEq, Repr

/-- The runner's instantaneous state. -/
structure RunnerState (α β : Type) where
  queue : List α
  inFlight : List α
  idle : Nat
  results : List (RunResult α β)
deriving DecidableEq, Repr

/-- The state right after `Array(Math.min(concurrency, items.length))`
workers are started: full queue, no fetch dispatched yet, no results. -/
def initState {α β : Type} (q : List α) (k : Nat) : RunnerState α β :=
  ⟨q, [], min k q.length, []⟩

/-- One scheduler step of the worker pool. -/
inductive RunnerStep {α β : Type} (op : α → Except String β) :
    RunnerState α β → RunnerState α β → Prop where
  | pop (x : α) (q f : List α) (n : Nat) (rs : List (RunResult α β)) :
      RunnerStep op ⟨x :: q, f, n + 1, rs⟩ ⟨q, x :: f, n, rs⟩
  | finish (f : List α) (n : Nat) (rs : List (RunResult α β)) :
      RunnerStep op ⟨[], f, n + 1, rs⟩ ⟨[], f, n, rs⟩
  | complete (q f₁ f₂ : List α) (x : α) (n : Nat) (rs : List (RunResult α β)) :
      RunnerStep op ⟨q, f₁ ++ x :: f₂, n, rs⟩ ⟨q, f₁ ++ f₂, n + 1, rs ++ [⟨x, op x⟩]⟩

/-- Reflexive-transitive closure: any interleaved execution prefix. -/
def RunnerSteps {α β : Type} (op : α → Except String β) :
    RunnerState α β → RunnerState α β → Prop :=
  Relation.ReflTransGen (RunnerStep op)

/-- The run is over: every worker has terminated. -/
def RunnerDone {α β : Type} (s : RunnerState α β) : Prop :=
  s.idle = 0 ∧ s.inFlight = []

instance {α β : Type} [DecidableEq α] (s : RunnerState α β) : Decidable (RunnerDone s) :=
  decidable_of_iff (s.idle = 0 ∧ s.inFlight = []) Iff.rfl

/-- Done states have no successors: the run cannot continue. -/
theorem runnerDone_no_step {α β : Type} (op : α → Except String β)
    (s s' : RunnerState α β) (h : RunnerDone s) : ¬ RunnerStep op s s' := by
  intro hstep
  obtain ⟨hidle, hf⟩ := h
  cases hstep <;> simp_all

/-- Inserting an element in the middle is a permutation of consing it in front. -/
theorem perm_shift {α : Type} (A f q : List α) (x : α) :
    List.Perm (A ++ (x :: f) ++ q) (A ++ f ++ (x :: q)) := by
  rw [List.append_assoc, List.append_assoc]
  refine List.Perm.append_left A ?_
  rw [List.cons_append]
  exact List.perm_middle.symm

/-- Moving an element from the middle of the in-flight list to the end of the
results is a permutation. -/
theorem perm_complete {α : Type} (A f₁ f₂ q : List α) (x : α) :
    List.Perm ((A ++ [x]) ++ (f₁ ++ f₂) ++ q) (A ++ (f₁ ++ x :: f₂) ++ q) := by
  refine List.Perm.append_right q ?_
  rw [List.append_assoc]
  refine List.Perm.append_left A ?_
  rw [List.singleton_append]
  exact List.perm_middle.symm

/-- Execution invariant: (1) results, in-flight items and remaining queue
together are a permutation of the original queue; (2) every recorded result
carries its own item's outcome; (3) workers only terminate on an empty
queue, so while the queue is non-empty the worker count stays
`min k (length q₀)`. -/
def RunnerInv {α β : Type} (q₀ : List α) (k : Nat) (op : α → Except String β)
    (s : RunnerState α β) : Prop :=
  List.Perm (s.results.map (fun r => r.item) ++ s.inFlight ++ s.queue) q₀ ∧
  (∀ r ∈ s.results, r.outcome = op r.item) ∧
  (s.queue = [] ∨ s.idle + s.inFlight.length = min k q₀.length)

/-- The initial state satisfies the invariant. -/
theorem runnerInv_init {α β : Type} (q₀ : List α) (k : Nat) (op : α → Except String β) :
    RunnerInv q₀ k op (initState q₀ k) := by
  refine ⟨by simp [initState], by simp [initState], Or.inr (by simp [initState])⟩

/-- Every scheduler step preserves the invariant. -/
theorem runnerInv_step {α β : Type} {q₀ : List α} {k : Nat} {op : α → Except String β}
    {s s' : RunnerState α β} (hinv : RunnerInv q₀ k op s) (hstep : RunnerStep op s s') :
    RunnerInv q₀ k op s' := by
  obtain ⟨hperm, hout, hw⟩ := hinv
  cases hstep with
  | pop x q f n rs =>
      refine ⟨(perm_shift _ f q x).trans hperm, hout, ?_⟩
      rcases q with _ | ⟨y, q⟩
      · exact Or.inl rfl
      · rcases hw with hw | hw
        · exact absurd hw (by simp)
        · refine Or.inr ?_
          simp only [List.length_cons] at hw ⊢
          omega
  | finish f n rs =>
      exact ⟨hperm, hout, Or.inl rfl⟩
  | complete q f₁ f₂ x n rs =>
      refine ⟨?_, ?_, ?_⟩
      · refine List.Perm.trans ?_ hperm
        have := perm_complete (rs.map (fun r => r.item)) f₁ f₂ q x
        simpa using this
      · intro r hr
        rcases List.mem_append.mp hr with h | h
        · exact hout r h
        · rcases List.mem_singleton.mp h with rfl
          rfl
      · rcases hw with hw | hw
        · exact Or.inl hw
        · refine Or.inr ?_
          simp only [List.length_append, List.length_cons] at hw ⊢
          omega

/-- The invariant holds along any execution. -/
theorem runnerInv_steps {α β : Type} {q₀ : List α} {k : Nat} {op : α → Except String β}
    {s s' : RunnerState α β} (hs : RunnerSteps op s s') (hinv : RunnerInv q₀ k op s) :
    RunnerInv q₀ k op s' := by
  induction hs with
  | refl => exact hinv
  | tail _ hstep ih => exact runnerInv_step ih hstep

/-- C3: for every input queue (any length ≥ 0), every concurrency limit
`K ≥ 1` and every per-item fetch outcome `op`, any completed execution of
the runner has recorded exactly one result per input item (the recorded
items are a permutation of the queue), and each result carries its own
item's success value or failure reason — one item's failure never removes
or alters any other item's result. -/
theorem runner_results {α β : Type} (op : α → Except String β) (q₀ : List α) (k : Nat)
    (hk : 1 ≤ k) (s : RunnerState α β)
    (hs : RunnerSteps op (initState q₀ k) s) (hdone : RunnerDone s) :
    List.Perm (s.results.map (fun r => r.item)) q₀ ∧
    (∀ r ∈ s.results, r.outcome = op r.item) := by
  obtain ⟨hperm, hout, hw⟩ := runnerInv_steps hs (runnerInv_init q₀ k op)
  obtain ⟨hidle, hflight⟩ := hdone
  refine ⟨?_, hout⟩
  rcases hw with hq | hw
  · rw [hq, hflight] at hperm
    simpa using hperm
  · rw [hidle, hflight] at hw
    simp only [List.length_nil] at hw
    have hlen : q₀.length = 0 := by omega
    have hq : s.queue = [] := by
      have hle := hperm.length_eq
      simp only [List.length_append] at hle
      have := List.length_eq_zero.mp (by omega : s.queue.length = 0)
      exact this
    rw [hq, hflight] at hperm
    simpa using hperm

/-- Per-item outcome for the C3 witness: item 0 fails, item 1 succeeds. -/
def c3op : Nat → Except String Nat := fun n => if n = 0 then Except.error "boom" else Except.ok n

/-- Completed state of the C3 witness run. -/
def c3final : RunnerState Nat Nat :=
  ⟨[], [], 0, [⟨0, Except.error "boom"⟩, ⟨1, Except.ok 1⟩]⟩

/-- A complete single-worker execution over the queue `[0, 1]`: pop 0,
fail it, pop 1, succeed, then the worker finishes on the empty queue. -/
theorem c3trace : RunnerSteps c3op (initState [0, 1] 1) c3final := by
  have t1 : RunnerStep c3op ⟨[0, 1], [], 1, []⟩ ⟨[1], [0], 0, []⟩ :=
    RunnerStep.pop 0 [1] [] 0 []
  have t2 : RunnerStep c3op ⟨[1], [0], 0, []⟩ ⟨[1], [], 1, [⟨0, Except.error "boom"⟩]⟩ :=
    RunnerStep.complete [1] [] [] 0 0 []
  have t3 : RunnerStep c3op ⟨[1], [], 1, [⟨0, Except.error "boom"⟩]⟩
      ⟨[], [1], 0, [⟨0, Except.error "boom"⟩]⟩ :=
    RunnerStep.pop 1 [] [] 0 [⟨0, Except.error "boom"⟩]
  have t4 : RunnerStep c3op ⟨[], [1], 0, [⟨0, Except.error "boom"⟩]⟩
      ⟨[], [], 1, [⟨0, Except.error "boom"⟩, ⟨1, Except.ok 1⟩]⟩ :=
    RunnerStep.complete [] [] [] 1 0 [⟨0, Except.error "boom"⟩]
  have t5 : RunnerStep c3op ⟨[], [], 1, [⟨0, Except.error "boom"⟩, ⟨1, Except.ok 1⟩]⟩ c3final :=
    RunnerStep.finish [] 0 [⟨0, Except.error "boom"⟩, ⟨1, Except.ok 1⟩]
  exact Relation.ReflTransGen.head t1 (Relation.ReflTransGen.head t2
    (Relation.ReflTransGen.head t3 (Relation.ReflTransGen.head t4
      (Relation.ReflTransGen.head t5 Relation.ReflTransGen.refl))))

/-- Witness for C3 at a concrete input: the completed run over `[0, 1]` with
`K = 1` records exactly one result per item and keeps item 1's success next
to item 0's failure. -/
theorem runner_results_witness :
    List.Perm (c3final.results.map (fun r => r.item)) [0, 1] ∧
    (∀ r ∈ c3final.results, r.outcome = c3op r.item) :=
  runner_results c3op [0, 1] 1 (by decide) c3final c3trace (by decide)

/-- Counterexample for C4: with `K = 0` and the non-empty queue `[0]`, the
runner starts `Math.min(0, 1) = 0` workers, so the initial state is already
a completed run — no results for a one-item queue, contradicting "each item
is still processed and yields a result even when the caller passes K = 0". -/
theorem runner_no_lower_clamp :
    RunnerDone (initState ([0] : List Nat) 0 : RunnerState Nat Nat) ∧
    (initState ([0] : List Nat) 0 : RunnerState Nat Nat).idle = 0 ∧
    (initState ([0] : List Nat) 0 : RunnerState Nat Nat).results = [] ∧
    (initState ([0] : List Nat) 0 : RunnerState Nat Nat).queue = [0] := by
  refine ⟨⟨rfl, rfl⟩, rfl, rfl, rfl⟩

/-- C4 (amended): the effective worker count is `min K (queue length)` — the
code clamps only from above.  For `K = 0` no worker is started: the initial
state is already done, with no results regardless of the queue.  (For
`K ≥ 1` every item still yields one result, by `runner_results`.) -/
theorem runner_worker_count {α β : Type} (k : Nat) (q₀ : List α)
    (_op : α → Except String β) :
    (initState q₀ k : RunnerState α β).idle = min k q₀.length ∧
    (k = 0 → RunnerDone (initState q₀ k : RunnerState α β) ∧
      (initState q₀ k : RunnerState α β).results = []) := by
  refine ⟨rfl, ?_⟩
  rintro rfl
  exact ⟨⟨by simp [initState], rfl⟩, rfl⟩

/-- Witness for the amended C4 at a concrete input. -/
theorem runner_worker_count_witness :
    (initState ([3] : List Nat) 0 : RunnerState Nat Nat).idle = min 0 1 ∧
    (RunnerDone (initState ([3] : List Nat) 0 : RunnerState Nat Nat) ∧
      (initState ([3] : List Nat) 0 : RunnerState Nat Nat).results = []) := by
  have h := runner_worker_count (α := Nat) (β := Nat) 0 [3] c3op
  have h1 : (initState ([3] : List Nat) 0 : RunnerState Nat Nat).idle = min 0 1 := by
    rw [h.1]
    rfl
  exact ⟨h1, h.2 rfl⟩
